import Mathlib

/-!
Verification development for the ThumbtackAgent lead/message processing
pipeline.  The Python sources are shallowly embedded: pure computations
become Lean functions, the stateful poll loops become explicit state
passing over lists, and the external gateways (marketplace, Google
Calendar, the language-model oracle) become function parameters whose
`Option` results model a raised-and-caught exception (`none`) versus a
successful reply (`some _`).

Times are modelled with the rationals: a point in time during the slot
search (`calendar_client.get_available_slots`) is the number of hours
since midnight of the searched date, so `date.replace(hour=h)` becomes
the rational `h` and `timedelta(hours=x)` becomes `+ x`.  Where whole
days matter (the booking handler), a `DateTime` record holds a day
index and an hour-of-day; Monday is day-index `0 (mod 7)`, matching the
Monday=0 convention of `datetime.weekday()`.

Python float prices and confidence scores are modelled as rationals.
-/

/-! ## Data model (src/models.py, src/config.py) -/

/-- Lead lifecycle status, from `models.LeadStatus`. -/
inductive LeadStatus where
  | new
  | contacted
  | quoted
  | booked
  | completed
  | declined
deriving DecidableEq, Repr

/-- Customer inquiry record, from `models.Lead`.  Fields that no claim
touches (phone, preferred date, location, status, timestamps, metadata)
are omitted; `budget_range` is the ordered pair `(min, max)`. -/
structure Lead where
  id : String
  customer_name : String
  customer_email : Option String
  service_category : String
  description : String
  budget_range : Option (ℚ × ℚ)
deriving DecidableEq, Repr

/-- Inbound or outbound communication, from `models.Message`. -/
structure Message where
  id : String
  lead_id : String
  sender : String
  content : String
deriving DecidableEq, Repr

/-- Classifier output, from `models.GPTAnalysis`. -/
structure GPTAnalysis where
  sentiment : String
  intent : String
  urgency : String
  suggested_price : Option ℚ
  key_requirements : List String
  suggested_response : String
  confidence_score : ℚ
deriving DecidableEq, Repr

/-- Business configuration, from `config.Config` (only the fields the
embedded code reads). -/
structure Config where
  business_name : String
  service_type : String
  base_price : ℚ
  price_range_min : ℚ
  price_range_max : ℚ
deriving DecidableEq, Repr

/-- Wall-clock instant for the booking handler: a day index plus an
hour-of-day.  Day arithmetic never leaves the `[0, 24)` hour window in
the embedded code, so no normalisation is needed. -/
structure DateTime where
  day : ℤ
  hour : ℚ
deriving DecidableEq, Repr

/-- Scheduled appointment, from `models.CalendarEvent` (the `id` and
`location` fields, unused by the booking handler, are omitted). -/
structure CalendarEvent where
  lead_id : String
  title : String
  description : String
  start_time : DateTime
  end_time : DateTime
  attendees : List String
deriving DecidableEq, Repr

/-! ## Availability Engine (src/calendar_client.py)

The Google Calendar gateway is a parameter
`gw : ℚ → ℚ → Option (List (ℚ × ℚ))`: queried with a window
`[start, end)` it either raises (`none`, the `except` branch of
`check_availability`) or returns a list of events, each an interval
`(event_start, event_end)` in hours.  The real gateway pre-filters the
returned events by the query window, but `check_availability` re-checks
overlap itself, so passing the full event list is behaviourally
identical.  The flag `service_ok` models `self.service` being set up
(`False` plays the role of `self.service is None`). -/

/-- Embeds `CalendarClient.check_availability` (calendar_client.py
lines 62-105): `False` when the service is missing or the gateway
raises; otherwise `True` iff no returned event satisfies the overlap
test `start_time < event_end and end_time > event_start`. -/
def check_availability (service_ok : Bool)
    (gw : ℚ → ℚ → Option (List (ℚ × ℚ)))
    (start_time end_time : ℚ) : Bool :=
  if service_ok = false then false
  else
    match gw start_time end_time with
    | none => false
    | some events =>
        events.all (fun ev => !(decide (start_time < ev.2) && decide (end_time > ev.1)))

/-- One-hour stepping loop of `get_available_slots` (calendar_client.py
lines 124-130): while `current + duration <= end_time`, append `current`
when `check_availability` accepts the window, then advance one hour.
The loop in the source terminates because `current` grows by one hour
each pass; here a fuel argument bounds the passes, and
`slot_loop_eq_filter` below shows the fuel chosen by
`get_available_slots` is never exhausted early. -/
def slot_loop (service_ok : Bool) (gw : ℚ → ℚ → Option (List (ℚ × ℚ)))
    (duration_hours end_time : ℚ) : ℕ → ℚ → List ℚ
  | 0, _ => []
  | fuel + 1, current =>
      if current + duration_hours ≤ end_time then
        (if check_availability service_ok gw current (current + duration_hours)
          then [current] else []) ++
        slot_loop service_ok gw duration_hours end_time fuel (current + 1)
      else []

/-- Embeds `CalendarClient.get_available_slots` (calendar_client.py
lines 107-137).  Business hours are the integer pair of the source
signature; times are hours since midnight of the searched date, so the
`date` argument of the source fixes the origin and drops out. -/
def get_available_slots (service_ok : Bool)
    (gw : ℚ → ℚ → Option (List (ℚ × ℚ)))
    (duration_hours : ℚ) (business_hours : ℤ × ℤ) : List ℚ :=
  if service_ok = false then []
  else
    let start_hour := business_hours.1
    let end_hour := business_hours.2
    slot_loop service_ok gw duration_hours (end_hour : ℚ)
      ((⌈(end_hour : ℚ) - (start_hour : ℚ) - duration_hours⌉).toNat + 1)
      (start_hour : ℚ)

theorem slot_loop_eq_filter (service_ok : Bool)
    (gw : ℚ → ℚ → Option (List (ℚ × ℚ))) (duration_hours end_time : ℚ) :
    ∀ (fuel : ℕ) (current : ℚ),
      slot_loop service_ok gw duration_hours end_time fuel current =
        ((List.range fuel).map (fun k : ℕ => current + (k : ℚ))).filter
          (fun s => decide (s + duration_hours ≤ end_time) &&
            check_availability service_ok gw s (s + duration_hours)) := by
  intro fuel
  induction fuel with
  | zero => intro current; simp [slot_loop]
  | succ n ih =>
      intro current
      by_cases h : current + duration_hours ≤ end_time
      · rw [List.range_succ_eq_map]
        simp only [slot_loop, if_pos h, List.map_cons, List.filter_cons, List.map_map]
        have hmap : (List.map Nat.succ (List.range n)).map
              (fun k : ℕ => current + (k : ℚ)) =
            (List.range n).map (fun k : ℕ => (current + 1) + (k : ℚ)) := by
          rw [List.map_map]
          refine List.map_congr_left ?_
          intro k _
          simp only [Function.comp_apply, Nat.succ_eq_add_one]
          push_cast
          ring
        rw [List.map_map] at hmap
        rw [hmap, ← ih (current + 1)]
        have hd : decide (current + duration_hours ≤ end_time) = true :=
          decide_eq_true h
        simp only [Nat.cast_zero, add_zero, hd, Bool.true_and]
        by_cases hav : check_availability service_ok gw current
            (current + duration_hours)
        · simp [hav]
        · simp [hav]
      · simp only [slot_loop, if_neg h]
        symm
        rw [List.filter_eq_nil_iff]
        intro s hs
        rcases List.mem_map.mp hs with ⟨k, -, rfl⟩
        have hk : (0 : ℚ) ≤ (k : ℚ) := Nat.cast_nonneg k
        have hnot : ¬ (current + (k : ℚ) + duration_hours ≤ end_time) := by
          intro hle
          exact h (by linarith)
        simp [hnot]

theorem check_availability_some (events : List (ℚ × ℚ)) (s e : ℚ) :
    check_availability true (fun _ _ => some events) s e = true ↔
      ∀ ev ∈ events, ¬(s < ev.2 ∧ ev.1 < e) := by
  simp only [check_availability, Bool.true_eq_false, if_false, List.all_eq_true,
    Bool.not_eq_true', Bool.and_eq_false_iff, decide_eq_false_iff_not]
  constructor
  · intro h ev hev hcon
    rcases h ev hev with h1 | h2
    · exact h1 hcon.1
    · exact h2 hcon.2
  · intro h ev hev
    by_cases h1 : s < ev.2
    · exact Or.inr (fun h2 => h ev hev ⟨h1, h2⟩)
    · exact Or.inl h1

theorem mem_get_available_slots (events : List (ℚ × ℚ)) (duration_hours : ℚ)
    (start_hour end_hour : ℤ) (s : ℚ) :
    s ∈ get_available_slots true (fun _ _ => some events) duration_hours
        (start_hour, end_hour) ↔
      ((∃ k : ℕ, s = (start_hour : ℚ) + k) ∧ s + duration_hours ≤ (end_hour : ℚ) ∧
        ∀ ev ∈ events, ¬(s < ev.2 ∧ ev.1 < s + duration_hours)) := by
  have hrw : get_available_slots true (fun _ _ => some events) duration_hours
      (start_hour, end_hour) =
      slot_loop true (fun _ _ => some events) duration_hours ((end_hour : ℤ) : ℚ)
        ((⌈((end_hour : ℤ) : ℚ) - ((start_hour : ℤ) : ℚ) - duration_hours⌉).toNat + 1)
        ((start_hour : ℤ) : ℚ) := by
    rw [get_available_slots]
    rfl
  rw [hrw, slot_loop_eq_filter]
  constructor
  · intro hmem
    rcases List.mem_filter.mp hmem with ⟨hmap, hpred⟩
    rcases List.mem_map.mp hmap with ⟨k, -, rfl⟩
    simp only [Bool.and_eq_true] at hpred
    rcases hpred with ⟨hle, hav⟩
    exact ⟨⟨k, rfl⟩, of_decide_eq_true hle,
      (check_availability_some events _ _).mp hav⟩
  · rintro ⟨⟨k, rfl⟩, hle, hav⟩
    have hk : (k : ℚ) ≤ ((end_hour : ℤ) : ℚ) - ((start_hour : ℤ) : ℚ) - duration_hours := by
      linarith
    have hk2 : (k : ℤ) ≤ ⌈((end_hour : ℤ) : ℚ) - ((start_hour : ℤ) : ℚ) - duration_hours⌉ := by
      exact_mod_cast hk.trans (Int.le_ceil _)
    have hkF : k < (⌈((end_hour : ℤ) : ℚ) - ((start_hour : ℤ) : ℚ) - duration_hours⌉).toNat + 1 := by
      omega
    refine List.mem_filter.mpr ⟨List.mem_map.mpr ⟨k, List.mem_range.mpr hkF, rfl⟩, ?_⟩
    simp only [Bool.and_eq_true]
    exact ⟨decide_eq_true hle, (check_availability_some events _ _).mpr hav⟩

theorem get_available_slots_pairwise (service_ok : Bool)
    (gw : ℚ → ℚ → Option (List (ℚ × ℚ))) (duration_hours : ℚ)
    (business_hours : ℤ × ℤ) :
    (get_available_slots service_ok gw duration_hours business_hours).Pairwise
      (· < ·) := by
  rcases business_hours with ⟨start_hour, end_hour⟩
  by_cases hs : service_ok = false
  · simp [get_available_slots, hs]
  · have hrw : get_available_slots service_ok gw duration_hours
        (start_hour, end_hour) =
        slot_loop service_ok gw duration_hours ((end_hour : ℤ) : ℚ)
          ((⌈((end_hour : ℤ) : ℚ) - ((start_hour : ℤ) : ℚ) - duration_hours⌉).toNat + 1)
          ((start_hour : ℤ) : ℚ) := by
      rw [get_available_slots, if_neg hs]
    rw [hrw, slot_loop_eq_filter]
    refine List.Pairwise.sublist (List.filter_sublist _) ?_
    refine List.Pairwise.map _ (fun a b hab => ?_) (List.pairwise_lt_range _)
    have : (a : ℚ) < (b : ℚ) := by exact_mod_cast hab
    linarith

theorem get_available_slots_concrete :
    get_available_slots true (fun _ _ => some [((10 : ℚ), 12)]) 2 (9, 17) =
      [12, 13, 14, 15] := by
  haveI : IsAntisymm ℚ (· < ·) := ⟨fun a b h h2 => absurd h2 (lt_asymm h)⟩
  have hpair := get_available_slots_pairwise true
    (fun _ _ => some [((10 : ℚ), 12)]) 2 (9, 17)
  have htgt : List.Pairwise (· < ·) ([12, 13, 14, 15] : List ℚ) := by
    norm_num [List.pairwise_cons]
  refine List.eq_of_perm_of_sorted ?_ hpair htgt
  refine (List.perm_ext_iff_of_nodup (hpair.imp ne_of_lt) (htgt.imp ne_of_lt)).mpr ?_
  intro s
  rw [mem_get_available_slots [((10 : ℚ), 12)] 2 9 17 s]
  constructor
  · rintro ⟨⟨k, rfl⟩, hle, hav⟩
    have hk6 : k ≤ 6 := by
      have : (k : ℚ) ≤ 6 := by push_cast at hle ⊢; linarith
      exact_mod_cast this
    have hav' := hav ((10 : ℚ), 12) (List.mem_singleton.mpr rfl)
    have h10 : (10 : ℚ) < ((9 : ℤ) : ℚ) + (k : ℚ) + 2 := by
      have hk0 : (0 : ℚ) ≤ (k : ℚ) := Nat.cast_nonneg k
      push_cast
      linarith
    have hk3 : ¬ (((9 : ℤ) : ℚ) + (k : ℚ) < 12) := fun hlt => hav' ⟨hlt, h10⟩
    have hk3' : 3 ≤ k := by
      by_contra hc
      push_neg at hc
      apply hk3
      push_cast
      interval_cases k <;> norm_num
    interval_cases k <;> push_cast <;> norm_num
  · intro hs
    simp only [List.mem_cons, List.mem_singleton, List.not_mem_nil, or_false] at hs
    have hclose : ∀ ev ∈ [((10 : ℚ), 12)], ¬(s < ev.2 ∧ ev.1 < s + 2) := by
      intro ev hev
      rw [List.mem_singleton] at hev
      subst hev
      rcases hs with rfl | rfl | rfl | rfl <;> norm_num
    rcases hs with rfl | rfl | rfl | rfl
    · exact ⟨⟨3, by push_cast; norm_num⟩, by push_cast; norm_num, hclose⟩
    · exact ⟨⟨4, by push_cast; norm_num⟩, by push_cast; norm_num, hclose⟩
    · exact ⟨⟨5, by push_cast; norm_num⟩, by push_cast; norm_num, hclose⟩
    · exact ⟨⟨6, by push_cast; norm_num⟩, by push_cast; norm_num, hclose⟩

/-- C3 (amended): for every duration, business-hour window and set of
existing calendar events, `get_available_slots` returns exactly the
hourly-aligned candidate starts `s = startHour + k` (k a natural) with
`s + duration <= endHour`, keeping those whose interval
`[s, s + duration)` overlaps no existing event under the half-open rule
(`[a,b)` and `[c,d)` overlap iff `a < d` and `c < b`), in chronological
order (the original claim instead located the candidates inside
`[startHour, endHour)`, which fails for a zero duration); concretely,
with business hours (9,17), one event [10:00,12:00) and a 2-hour
duration the returned starts are exactly 12:00, 13:00, 14:00, 15:00. -/
theorem get_available_slots_spec :
    (∀ (events : List (ℚ × ℚ)) (duration_hours : ℚ) (start_hour end_hour : ℤ)
        (s : ℚ),
      s ∈ get_available_slots true (fun _ _ => some events) duration_hours
          (start_hour, end_hour) ↔
        ((∃ k : ℕ, s = (start_hour : ℚ) + k) ∧
          s + duration_hours ≤ (end_hour : ℚ) ∧
          ∀ ev ∈ events, ¬(s < ev.2 ∧ ev.1 < s + duration_hours))) ∧
    (∀ (service_ok : Bool) (gw : ℚ → ℚ → Option (List (ℚ × ℚ)))
        (duration_hours : ℚ) (business_hours : ℤ × ℤ),
      (get_available_slots service_ok gw duration_hours
          business_hours).Pairwise (· < ·)) ∧
    get_available_slots true (fun _ _ => some [((10 : ℚ), 12)]) 2 (9, 17) =
      [12, 13, 14, 15] :=
  ⟨mem_get_available_slots, get_available_slots_pairwise,
    get_available_slots_concrete⟩

/-- C3 counterexample: with a zero duration, empty calendar and business
hours (9,17), the start 17:00 is returned although it does not lie in
the half-open window [9,17) the claim prescribes for candidate starts. -/
theorem get_available_slots_window_counterexample :
    (17 : ℚ) ∈ get_available_slots true (fun _ _ => some []) 0 (9, 17) ∧
      ¬ ((17 : ℚ) < ((17 : ℤ) : ℚ)) := by
  constructor
  · rw [mem_get_available_slots [] 0 9 17 17]
    exact ⟨⟨8, by push_cast; norm_num⟩, by push_cast; norm_num, by simp⟩
  · push_cast
    exact lt_irrefl _

/-- Evaluation witness for C3: the membership characterisation applied at
the concrete available start 12:00 of the concrete scenario. -/
theorem get_available_slots_spec_witness :
    (12 : ℚ) ∈ get_available_slots true (fun _ _ => some [((10 : ℚ), 12)]) 2
      (9, 17) :=
  (get_available_slots_spec.1 [((10 : ℚ), 12)] 2 9 17 12).mpr
    ⟨⟨3, by push_cast; norm_num⟩, by push_cast; norm_num, by
      intro ev hev
      rw [List.mem_singleton] at hev
      subst hev
      norm_num⟩

/-- C9: a slot search against a missing calendar service returns the
empty list, and a slot search during which every gateway call raises
also returns the empty list; in the embedding both functions are total,
so no error propagates out of the search. -/
theorem gateway_error_empty_slots :
    ∀ (gw : ℚ → ℚ → Option (List (ℚ × ℚ))) (duration_hours : ℚ)
      (business_hours : ℤ × ℤ),
      get_available_slots false gw duration_hours business_hours = [] ∧
      ((∀ a b, gw a b = none) →
        get_available_slots true gw duration_hours business_hours = []) := by
  intro gw duration_hours business_hours
  refine ⟨by simp [get_available_slots], ?_⟩
  intro hgw
  rcases business_hours with ⟨start_hour, end_hour⟩
  have hrw : get_available_slots true gw duration_hours (start_hour, end_hour) =
      slot_loop true gw duration_hours ((end_hour : ℤ) : ℚ)
        ((⌈((end_hour : ℤ) : ℚ) - ((start_hour : ℤ) : ℚ) - duration_hours⌉).toNat + 1)
        ((start_hour : ℤ) : ℚ) := by
    rw [get_available_slots]
    rfl
  rw [hrw, slot_loop_eq_filter, List.filter_eq_nil_iff]
  intro s _
  simp [check_availability, hgw]

/-- Evaluation witness for C9: both failure modes at concrete inputs. -/
theorem gateway_error_empty_slots_witness :
    get_available_slots true (fun _ _ => none) 2 (9, 17) = [] ∧
      get_available_slots false (fun _ _ => some []) 2 (9, 17) = [] :=
  ⟨(gateway_error_empty_slots (fun _ _ => none) 2 (9, 17)).2 (fun _ _ => rfl),
    (gateway_error_empty_slots (fun _ _ => some []) 2 (9, 17)).1⟩

/-! ## Classification Oracle Adapter (src/gpt_client.py)

The oracle itself is a parameter `Lead → Option GPTAnalysis`: `none`
covers a transport error as well as a malformed (non-JSON) reply, both
of which the adapter turns into the fallback.  The `available` flag is
`GPTClient.is_available` (client object present). -/

/-- ASCII apostrophe, kept out of string literals. -/
def apostrophe : String := String.mk [Char.ofNat 39]

/-- Embeds `GPTClient._get_fallback_analysis` (gpt_client.py lines
231-248), the deterministic analysis used when the oracle is not
consulted or fails. -/
def get_fallback_analysis (cfg : Config) (lead : Lead) : GPTAnalysis :=
  let suggested_price : ℚ :=
    match lead.budget_range with
    | none => cfg.base_price
    | some (min_budget, max_budget) =>
        min max_budget (max min_budget cfg.base_price)
  { sentiment := "neutral"
    intent := "quote_request"
    urgency := "medium"
    suggested_price := some suggested_price
    key_requirements := [lead.service_category]
    suggested_response := "Thank you for your interest in our " ++
      cfg.service_type.toLower ++ " services. We" ++ apostrophe ++
      "d be happy to help with " ++ lead.description.take 50 ++ "..."
    confidence_score := 1 / 2 }

/-- Embeds `GPTClient.analyze_lead` (gpt_client.py lines 81-133): the
fallback is returned at once when the client is unavailable, and again
when the oracle call raises or its reply fails to parse (`none`). -/
def analyze_lead (available : Bool) (oracle : Lead → Option GPTAnalysis)
    (cfg : Config) (lead : Lead) : GPTAnalysis :=
  if available = false then get_fallback_analysis cfg lead
  else
    match oracle lead with
    | none => get_fallback_analysis cfg lead
    | some analysis => analysis

/-! ## Workflow Router and Bot Orchestrator (src/main.py)

The marketplace gateway calls are traced rather than executed:
`routed` lists the item ids handed to classification and dispatch (in
order), `quotes` the `send_quote` calls, `status_updates` the
`update_lead_status` calls.  The ledgers `processed_leads` and
`processed_messages` are id lists (the timestamp value stored by the
source is never read by any decision, so it is dropped). -/

/-- Embeds the price computation of `ThumbtackBot._handle_quote_request`
(main.py lines 137-145).  Python `or` takes the right operand when the
left one is `None` **or** `0.0`, both being falsy; the budget clamp is
the if/elif chain of lines 140-145. -/
def quote_price (cfg : Config) (lead : Lead) (analysis : GPTAnalysis) : ℚ :=
  let suggested_price : ℚ :=
    match analysis.suggested_price with
    | none => cfg.base_price
    | some p => if p = 0 then cfg.base_price else p
  match lead.budget_range with
  | none => suggested_price
  | some (min_budget, max_budget) =>
      if suggested_price > max_budget then max_budget
      else if suggested_price < min_budget then min_budget
      else suggested_price

/-- Claim-side price selection, following the frozen words of C2: the
classifier suggested price, or the business base price only if the
suggested price is absent. -/
def claimed_price_choice (cfg : Config) (analysis : GPTAnalysis) : ℚ :=
  match analysis.suggested_price with
  | none => cfg.base_price
  | some p => p

/-- Trace of one lead-processing cycle. -/
structure LeadCycleResult where
  ledger : List String
  routed : List String
  quotes : List (String × ℚ)
  status_updates : List (String × LeadStatus)
deriving DecidableEq, Repr

/-- Effects of `ThumbtackBot._handle_quote_request` (main.py lines
131-162): one `send_quote` call carrying `quote_price`; `send_quote`
itself (thumbtack_client.py lines 215-246) also transitions the lead to
QUOTED when the send succeeds, with `send_ok` standing for that
success. -/
def handle_quote_request (cfg : Config) (send_ok : Lead → Bool)
    (lead : Lead) (analysis : GPTAnalysis) :
    List (String × ℚ) × List (String × LeadStatus) :=
  ([(lead.id, quote_price cfg lead analysis)],
    if send_ok lead then [(lead.id, LeadStatus.quoted)] else [])

/-- Loop of `ThumbtackBot.process_new_leads` (main.py lines 64-85): skip
ids already in the ledger, classify via the oracle, dispatch on the
classified intent (the scheduling and general handlers only send chat
messages, so they leave no quote or status trace), then mark the id
processed and update the status to CONTACTED.  Every lead handler and
the oracle adapter catch their own errors, so this loop never aborts
between items. -/
def process_new_leads_loop (cfg : Config) (oracle : Lead → GPTAnalysis)
    (send_ok : Lead → Bool) : List Lead → LeadCycleResult → LeadCycleResult
  | [], r => r
  | lead :: rest, r =>
      if lead.id ∈ r.ledger then
        process_new_leads_loop cfg oracle send_ok rest r
      else
        let analysis := oracle lead
        let handler_trace :=
          if analysis.intent = "quote_request" then
            handle_quote_request cfg send_ok lead analysis
          else ([], [])
        process_new_leads_loop cfg oracle send_ok rest
          { ledger := r.ledger ++ [lead.id]
            routed := r.routed ++ [lead.id]
            quotes := r.quotes ++ handler_trace.1
            status_updates := r.status_updates ++ handler_trace.2 ++
              [(lead.id, LeadStatus.contacted)] }

/-- Embeds `ThumbtackBot.process_new_leads` (main.py lines 57-91) for one
poll cycle over the fetched `new_leads`. -/
def process_new_leads (cfg : Config) (oracle : Lead → GPTAnalysis)
    (send_ok : Lead → Bool) (new_leads : List Lead)
    (processed_leads : List String) : LeadCycleResult :=
  process_new_leads_loop cfg oracle send_ok new_leads
    ⟨processed_leads, [], [], []⟩

/-- Trace of one message-processing cycle; `aborted` records that an
exception escaped a handler and was caught by the cycle-level `except`
of `process_new_messages`. -/
structure MessageCycleResult where
  ledger : List String
  routed : List String
  aborted : Bool
deriving DecidableEq, Repr

/-- Loop of `ThumbtackBot.process_new_messages` (main.py lines 100-123).
The whole `for` body sits inside the single cycle-level `try` of lines
95-129; there is no per-item wrapping.  `raises` says whether the
dispatched handler raises out of its own body (the scheduling and
booking handlers catch internally; `_handle_question` and
`_handle_general_message`, main.py lines 309-317, do not).  When a
handler raises, the loop therefore stops with the batch unfinished and
without marking the failing id.  Classification happens for exactly the
ids in `routed`: lead lookup returns `None` without raising and
`analyze_message` catches every oracle error. -/
def process_new_messages_loop (raises : Message → Bool) :
    List Message → List String → List String → MessageCycleResult
  | [], ledger, routed => ⟨ledger, routed, false⟩
  | m :: rest, ledger, routed =>
      if m.id ∈ ledger ∨ m.sender = "business" then
        process_new_messages_loop raises rest ledger routed
      else
        if raises m then ⟨ledger, routed ++ [m.id], true⟩
        else
          process_new_messages_loop raises rest (ledger ++ [m.id])
            (routed ++ [m.id])

/-- Embeds `ThumbtackBot.process_new_messages` (main.py lines 93-129)
for one poll cycle over the fetched `new_messages`. -/
def process_new_messages (raises : Message → Bool)
    (new_messages : List Message) (processed_messages : List String) :
    MessageCycleResult :=
  process_new_messages_loop raises new_messages processed_messages []

/-- Repeated poll cycles of the daemon (`ThumbtackBot.run_once` driven by
`run_daemon`, main.py lines 324-345), restricted to the message half:
each cycle feeds the ledger left by the previous one, and all routed ids
are accumulated. -/
def run_message_cycles (raises : Message → Bool) :
    List (List Message) → List String → List String →
      List String × List String
  | [], ledger, routed_all => (ledger, routed_all)
  | batch :: rest, ledger, routed_all =>
      let r := process_new_messages raises batch ledger
      run_message_cycles raises rest r.ledger (routed_all ++ r.routed)

/-- C6: with the oracle unavailable, `analyze_lead` returns exactly the
deterministic fallback analysis: neutral sentiment, quote_request
intent, medium urgency, suggested price min(max_budget, max(min_budget,
base_price)) when a budget range is present and the base price
otherwise, the service category as sole key requirement, the fixed
template response, confidence 1/2; and equal inputs give identical
analyses whatever the oracle argument. -/
theorem analyze_lead_fallback_deterministic :
    ∀ (oracle : Lead → Option GPTAnalysis) (cfg : Config) (lead : Lead),
      analyze_lead false oracle cfg lead =
        { sentiment := "neutral"
          intent := "quote_request"
          urgency := "medium"
          suggested_price := some (match lead.budget_range with
            | none => cfg.base_price
            | some (mn, mx) => min mx (max mn cfg.base_price))
          key_requirements := [lead.service_category]
          suggested_response := "Thank you for your interest in our " ++
            cfg.service_type.toLower ++ " services. We" ++ apostrophe ++
            "d be happy to help with " ++ lead.description.take 50 ++ "..."
          confidence_score := 1 / 2 } ∧
      (∀ (oracle2 : Lead → Option GPTAnalysis) (cfg2 : Config) (lead2 : Lead),
        cfg2 = cfg → lead2 = lead →
          analyze_lead false oracle2 cfg2 lead2 =
            analyze_lead false oracle cfg lead) := by
  intro oracle cfg lead
  constructor
  · cases hb : lead.budget_range with
    | none => simp [analyze_lead, get_fallback_analysis, hb]
    | some p => rcases p with ⟨mn, mx⟩; simp [analyze_lead, get_fallback_analysis, hb]
  · rintro oracle2 cfg2 lead2 rfl rfl
    rfl

/-- Evaluation witness for C6: the fallback analysis of a concrete lead
whose budget range (100, 500) leaves the base price 150 unclamped. -/
theorem analyze_lead_fallback_deterministic_witness :
    (analyze_lead false (fun _ => none)
        { business_name := "Your Business", service_type := "Photography",
          base_price := 150, price_range_min := 100, price_range_max := 500 }
        { id := "lead-1", customer_name := "Jane", customer_email := none,
          service_category := "Photography", description := "Wedding shoot",
          budget_range := some (100, 500) }).suggested_price = some 150 := by
  rw [(analyze_lead_fallback_deterministic (fun _ => none)
    { business_name := "Your Business", service_type := "Photography",
      base_price := 150, price_range_min := 100, price_range_max := 500 }
    { id := "lead-1", customer_name := "Jane", customer_email := none,
      service_category := "Photography", description := "Wedding shoot",
      budget_range := some (100, 500) }).1]
  norm_num

/-- C2 counterexample: with no budget range and a classifier suggested
price of 0, the handler sends the base price 150, while the claim as
stated (base price only when the suggested price is absent) predicts the
sent price 0. -/
theorem quote_price_zero_counterexample :
    quote_price
        { business_name := "Your Business", service_type := "Photography",
          base_price := 150, price_range_min := 100, price_range_max := 500 }
        { id := "lead-2", customer_name := "Bob", customer_email := none,
          service_category := "Photography", description := "Portraits",
          budget_range := none }
        { sentiment := "neutral", intent := "quote_request",
          urgency := "medium", suggested_price := some 0,
          key_requirements := [], suggested_response := "",
          confidence_score := 1 / 2 } = 150 ∧
    claimed_price_choice
        { business_name := "Your Business", service_type := "Photography",
          base_price := 150, price_range_min := 100, price_range_max := 500 }
        { sentiment := "neutral", intent := "quote_request",
          urgency := "medium", suggested_price := some 0,
          key_requirements := [], suggested_response := "",
          confidence_score := 1 / 2 } = 0 ∧
    (150 : ℚ) ≠ 0 := by
  refine ⟨?_, rfl, by norm_num⟩
  simp [quote_price]

/-- Amended-claim price selection: the classifier suggested price when
present and nonzero, the business base price when it is absent or zero
(Python `or` treats the float 0.0 like `None`). -/
def amended_price_choice (cfg : Config) (analysis : GPTAnalysis) : ℚ :=
  match analysis.suggested_price with
  | none => cfg.base_price
  | some p => if p = 0 then cfg.base_price else p

theorem clamp_eq_min_max (c mn mx : ℚ) (h : mn ≤ mx) :
    (if c > mx then mx else if c < mn then mn else c) = min mx (max mn c) := by
  simp only [min_def, max_def]
  split_ifs <;> linarith

/-- C2 (amended): the price sent by the quote handler is the classifier
suggested price when present and nonzero, or the business base price
when it is absent or zero, clamped into the budget range (min, max)
with min <= max as min(max, max(min, choice)) when a range is present;
and concretely a lead with budget (100, 200) whose analysis suggests
price 250 under quote_request intent is sent the price 200 and
afterwards receives the status update to CONTACTED. -/
theorem quote_price_amended :
    ∀ (cfg : Config) (lead : Lead) (analysis : GPTAnalysis),
      (lead.budget_range = none →
        quote_price cfg lead analysis = amended_price_choice cfg analysis) ∧
      (∀ mn mx, lead.budget_range = some (mn, mx) → mn ≤ mx →
        quote_price cfg lead analysis =
          min mx (max mn (amended_price_choice cfg analysis))) ∧
      (∀ (oracle : Lead → GPTAnalysis) (send_ok : Lead → Bool),
        lead.budget_range = some (100, 200) →
        (oracle lead).intent = "quote_request" →
        (oracle lead).suggested_price = some 250 →
        (lead.id, (200 : ℚ)) ∈
          (process_new_leads cfg oracle send_ok [lead] []).quotes ∧
        (lead.id, LeadStatus.contacted) ∈
          (process_new_leads cfg oracle send_ok [lead] []).status_updates) := by
  intro cfg lead analysis
  refine ⟨?_, ?_, ?_⟩
  · intro h
    simp [quote_price, amended_price_choice, h]
  · intro mn mx h hle
    have : quote_price cfg lead analysis =
        (if amended_price_choice cfg analysis > mx then mx
          else if amended_price_choice cfg analysis < mn then mn
          else amended_price_choice cfg analysis) := by
      simp [quote_price, amended_price_choice, h]
    rw [this, clamp_eq_min_max _ _ _ hle]
  · intro oracle send_ok hb hi hsp
    have hqp : quote_price cfg lead (oracle lead) = 200 := by
      rw [quote_price, hsp, hb]
      norm_num
    constructor
    · simp [process_new_leads, process_new_leads_loop, hi,
        handle_quote_request, hqp]
    · by_cases hs : send_ok lead <;>
        simp [process_new_leads, process_new_leads_loop, hi,
          handle_quote_request, hs]

/-- Evaluation witness for C2: the amended clamp formula and the
concrete scenario applied to a concrete lead with budget (100, 200) and
suggested price 250. -/
theorem quote_price_amended_witness :
    quote_price
        { business_name := "Your Business", service_type := "Photography",
          base_price := 150, price_range_min := 100, price_range_max := 500 }
        { id := "lead-3", customer_name := "Ann", customer_email := none,
          service_category := "Photography", description := "Event",
          budget_range := some (100, 200) }
        { sentiment := "positive", intent := "quote_request",
          urgency := "high", suggested_price := some 250,
          key_requirements := [], suggested_response := "",
          confidence_score := 1 / 2 } =
      min (200 : ℚ) (max 100 (amended_price_choice
        { business_name := "Your Business", service_type := "Photography",
          base_price := 150, price_range_min := 100, price_range_max := 500 }
        { sentiment := "positive", intent := "quote_request",
          urgency := "high", suggested_price := some 250,
          key_requirements := [], suggested_response := "",
          confidence_score := 1 / 2 })) :=
  ((quote_price_amended
    { business_name := "Your Business", service_type := "Photography",
      base_price := 150, price_range_min := 100, price_range_max := 500 }
    { id := "lead-3", customer_name := "Ann", customer_email := none,
      service_category := "Photography", description := "Event",
      budget_range := some (100, 200) }
    { sentiment := "positive", intent := "quote_request",
      urgency := "high", suggested_price := some 250,
      key_requirements := [], suggested_response := "",
      confidence_score := 1 / 2 }).2.1) 100 200 rfl (by norm_num)

theorem process_new_leads_loop_invariant (cfg : Config)
    (oracle : Lead → GPTAnalysis) (send_ok : Lead → Bool) :
    ∀ (ls : List Lead) (r : LeadCycleResult) (i : String),
      i ∈ r.ledger → i ∉ r.routed →
      i ∈ (process_new_leads_loop cfg oracle send_ok ls r).ledger ∧
        i ∉ (process_new_leads_loop cfg oracle send_ok ls r).routed := by
  intro ls
  induction ls with
  | nil => intro r i h1 h2; exact ⟨h1, h2⟩
  | cons lead rest ih =>
      intro r i h1 h2
      simp only [process_new_leads_loop]
      by_cases hmem : lead.id ∈ r.ledger
      · rw [if_pos hmem]
        exact ih r i h1 h2
      · rw [if_neg hmem]
        refine ih _ i ?_ ?_
      
        · exact List.mem_append.mpr (Or.inl h1)
        · intro hcon
          rcases List.mem_append.mp hcon with h | h
          · exact h2 h
          · rw [List.mem_singleton] at h
            rw [h] at h1
            exact hmem h1

theorem process_new_messages_loop_invariant (raises : Message → Bool) :
    ∀ (ms : List Message) (ledger routed : List String) (i : String),
      i ∈ ledger → i ∉ routed →
      i ∈ (process_new_messages_loop raises ms ledger routed).ledger ∧
        i ∉ (process_new_messages_loop raises ms ledger routed).routed := by
  intro ms
  induction ms with
  | nil => intro ledger routed i h1 h2; exact ⟨h1, h2⟩
  | cons m rest ih =>
      intro ledger routed i h1 h2
      simp only [process_new_messages_loop]
      by_cases hskip : m.id ∈ ledger ∨ m.sender = "business"
      · rw [if_pos hskip]
        exact ih ledger routed i h1 h2
      · rw [if_neg hskip]
        push_neg at hskip
        have hne : i ≠ m.id := fun he => hskip.1 (he ▸ h1)
        by_cases hr : raises m
        · rw [if_pos hr]
          refine ⟨h1, ?_⟩
          intro hcon
          rcases List.mem_append.mp hcon with h | h
          · exact h2 h
          · exact hne (List.mem_singleton.mp h)
        · rw [if_neg hr]
          refine ih _ _ i (List.mem_append.mpr (Or.inl h1)) ?_
          intro hcon
          rcases List.mem_append.mp hcon with h | h
          · exact h2 h
          · exact hne (List.mem_singleton.mp h)

/-- C1: an id already present in the processing ledger is never routed
(classified or dispatched) again within the cycle, for leads and
messages alike, and both ledgers only grow, so the skip persists for
the whole process lifetime. -/
theorem ledger_id_never_redispatched :
    ∀ (cfg : Config) (oracle : Lead → GPTAnalysis) (send_ok : Lead → Bool)
      (raises : Message → Bool) (new_leads : List Lead)
      (new_messages : List Message) (lead_ledger msg_ledger : List String)
      (i : String),
      (i ∈ lead_ledger →
        i ∉ (process_new_leads cfg oracle send_ok new_leads
          lead_ledger).routed) ∧
      (i ∈ msg_ledger →
        i ∉ (process_new_messages raises new_messages msg_ledger).routed) ∧
      (i ∈ lead_ledger →
        i ∈ (process_new_leads cfg oracle send_ok new_leads
          lead_ledger).ledger) ∧
      (i ∈ msg_ledger →
        i ∈ (process_new_messages raises new_messages msg_ledger).ledger) := by
  intro cfg oracle send_ok raises new_leads new_messages lead_ledger
    msg_ledger i
  refine ⟨fun h => ?_, fun h => ?_, fun h => ?_, fun h => ?_⟩
  · exact (process_new_leads_loop_invariant cfg oracle send_ok new_leads
      ⟨lead_ledger, [], [], []⟩ i h (List.not_mem_nil i)).2
  · exact (process_new_messages_loop_invariant raises new_messages
      msg_ledger [] i h (List.not_mem_nil i)).2
  · exact (process_new_leads_loop_invariant cfg oracle send_ok new_leads
      ⟨lead_ledger, [], [], []⟩ i h (List.not_mem_nil i)).1
  · exact (process_new_messages_loop_invariant raises new_messages
      msg_ledger [] i h (List.not_mem_nil i)).1

/-- Evaluation witness for C1: with the id a already in both ledgers, a
cycle over a fresh lead and a fresh message never routes a again. -/
theorem ledger_id_never_redispatched_witness :
    "a" ∉ (process_new_leads
        { business_name := "Your Business", service_type := "Photography",
          base_price := 150, price_range_min := 100, price_range_max := 500 }
        (fun lead => get_fallback_analysis
          { business_name := "Your Business", service_type := "Photography",
            base_price := 150, price_range_min := 100,
            price_range_max := 500 } lead)
        (fun _ => true)
        [{ id := "b", customer_name := "Bob", customer_email := none,
           service_category := "Photography", description := "Portraits",
           budget_range := none }]
        ["a"]).routed ∧
    "a" ∉ (process_new_messages (fun _ => false)
        [{ id := "c", lead_id := "b", sender := "customer",
           content := "hello" }]
        ["a"]).routed :=
  ⟨(ledger_id_never_redispatched
      { business_name := "Your Business", service_type := "Photography",
        base_price := 150, price_range_min := 100, price_range_max := 500 }
      (fun lead => get_fallback_analysis
        { business_name := "Your Business", service_type := "Photography",
          base_price := 150, price_range_min := 100,
          price_range_max := 500 } lead)
      (fun _ => true) (fun _ => false)
      [{ id := "b", customer_name := "Bob", customer_email := none,
         service_category := "Photography", description := "Portraits",
         budget_range := none }]
      [{ id := "c", lead_id := "b", sender := "customer",
         content := "hello" }]
      ["a"] ["a"] "a").1 (by decide),
    (ledger_id_never_redispatched
      { business_name := "Your Business", service_type := "Photography",
        base_price := 150, price_range_min := 100, price_range_max := 500 }
      (fun lead => get_fallback_analysis
        { business_name := "Your Business", service_type := "Photography",
          base_price := 150, price_range_min := 100,
          price_range_max := 500 } lead)
      (fun _ => true) (fun _ => false)
      [{ id := "b", customer_name := "Bob", customer_email := none,
         service_category := "Photography", description := "Portraits",
         budget_range := none }]
      [{ id := "c", lead_id := "b", sender := "customer",
         content := "hello" }]
      ["a"] ["a"] "a").2.1 (by decide)⟩

theorem process_new_messages_loop_business (raises : Message → Bool) :
    ∀ (ms : List Message) (ledger routed : List String),
      (∀ m ∈ ms, m.sender = "business") →
      (process_new_messages_loop raises ms ledger routed).routed = routed := by
  intro ms
  induction ms with
  | nil => intro ledger routed _; rfl
  | cons m rest ih =>
      intro ledger routed h
      simp only [process_new_messages_loop]
      rw [if_pos (Or.inr (h m (List.mem_cons_self m rest)))]
      exact ih ledger routed (fun x hx => h x (List.mem_cons_of_mem m hx))

/-- C7: a fetched batch consisting only of business-sent messages leads
to zero classification calls and zero handler dispatches: the routed
trace of the cycle is empty. -/
theorem business_batch_never_routed :
    ∀ (raises : Message → Bool) (new_messages : List Message)
      (ledger : List String),
      (∀ m ∈ new_messages, m.sender = "business") →
      (process_new_messages raises new_messages ledger).routed = [] := by
  intro raises new_messages ledger h
  exact process_new_messages_loop_business raises new_messages ledger [] h

/-- Evaluation witness for C7: a concrete batch of two business-sent
messages routes nothing. -/
theorem business_batch_never_routed_witness :
    (process_new_messages (fun _ => false)
      [{ id := "m8", lead_id := "l1", sender := "business",
         content := "our reply" },
       { id := "m9", lead_id := "l2", sender := "business",
         content := "our quote" }] []).routed = [] :=
  business_batch_never_routed (fun _ => false)
    [{ id := "m8", lead_id := "l1", sender := "business",
       content := "our reply" },
     { id := "m9", lead_id := "l2", sender := "business",
       content := "our quote" }] [] (by decide)

/-- C5 counterexample: in a batch of two customer messages where the
handler of the first raises, the second message is never classified or
dispatched and the failing id is never recorded in the ledger, because
the only try/except sits around the whole batch loop. -/
theorem message_error_isolation_counterexample :
    "m2" ∉ (process_new_messages (fun msg => decide (msg.id = "m1"))
        [{ id := "m1", lead_id := "l1", sender := "customer",
           content := "when can you come" },
         { id := "m2", lead_id := "l1", sender := "customer",
           content := "thanks" }] []).routed ∧
    "m1" ∉ (process_new_messages (fun msg => decide (msg.id = "m1"))
        [{ id := "m1", lead_id := "l1", sender := "customer",
           content := "when can you come" },
         { id := "m2", lead_id := "l1", sender := "customer",
           content := "thanks" }] []).ledger := by
  decide

theorem process_new_messages_loop_abort (raises : Message → Bool) :
    ∀ (pre : List Message) (m : Message) (post : List Message)
      (ledger routed : List String),
      ((pre ++ m :: post).map Message.id).Nodup →
      (∀ x ∈ pre, x.id ∈ ledger ∨ x.sender = "business" ∨ raises x = false) →
      m.id ∉ ledger → m.sender ≠ "business" → raises m = true →
      (∀ x ∈ post, x.id ∉ routed) →
      (process_new_messages_loop raises (pre ++ m :: post) ledger
          routed).aborted = true ∧
      m.id ∈ (process_new_messages_loop raises (pre ++ m :: post) ledger
          routed).routed ∧
      m.id ∉ (process_new_messages_loop raises (pre ++ m :: post) ledger
          routed).ledger ∧
      (∀ x ∈ post, x.id ∉ (process_new_messages_loop raises
          (pre ++ m :: post) ledger routed).routed) := by
  intro pre
  induction pre with
  | nil =>
      intro m post ledger routed hnd hpre hm1 hm2 hm3 hpost
      rw [List.nil_append] at hnd ⊢
      rw [List.map_cons, List.nodup_cons] at hnd
      simp only [process_new_messages_loop]
      rw [if_neg (not_or.mpr ⟨hm1, hm2⟩), if_pos hm3]
      refine ⟨rfl, by simp, hm1, ?_⟩
      intro x hx hcon
      rcases List.mem_append.mp hcon with h | h
      · exact hpost x hx h
      · exact hnd.1 ((List.mem_singleton.mp h) ▸
          List.mem_map.mpr ⟨x, hx, rfl⟩)
  | cons p pre' ih =>
      intro m post ledger routed hnd hpre hm1 hm2 hm3 hpost
      rw [List.cons_append] at hnd ⊢
      rw [List.map_cons, List.nodup_cons] at hnd
      have hpm : p.id ≠ m.id := by
        intro he
        exact hnd.1 (he ▸ List.mem_map.mpr ⟨m, by simp, rfl⟩)
      simp only [process_new_messages_loop]
      by_cases hskip : p.id ∈ ledger ∨ p.sender = "business"
      · rw [if_pos hskip]
        exact ih m post ledger routed hnd.2
          (fun x hx => hpre x (List.mem_cons_of_mem p hx)) hm1 hm2 hm3 hpost
      · rw [if_neg hskip]
        have hraise : raises p = false := by
          rcases hpre p (List.mem_cons_self p pre') with h | h | h
          · exact absurd (Or.inl h) hskip
          · exact absurd (Or.inr h) hskip
          · exact h
        rw [if_neg (by simp [hraise])]
        refine ih m post _ _ hnd.2 (fun x hx => ?_) ?_ hm2 hm3
          (fun x hx => ?_)
        · rcases hpre x (List.mem_cons_of_mem p hx) with h | h | h
          · exact Or.inl (List.mem_append.mpr (Or.inl h))
          · exact Or.inr (Or.inl h)
          · exact Or.inr (Or.inr h)
        · intro hcon
          rcases List.mem_append.mp hcon with h | h
          · exact hm1 h
          · exact hpm (List.mem_singleton.mp h).symm
        · intro hcon
          rcases List.mem_append.mp hcon with h | h
          · exact hpost x hx h
          · exact hnd.1 ((List.mem_singleton.mp h) ▸
              List.mem_map.mpr ⟨x, List.mem_append.mpr
                (Or.inr (List.mem_cons_of_mem m hx)), rfl⟩)

/-- C5 (amended): an error raised inside a message handler escapes to
the single cycle-level try/except of `process_new_messages`: processing
of the remaining messages in the batch is aborted, the failing message
id is not recorded in the ledger, and the message is therefore routed
again by a later cycle that fetches it (errors within the scheduling
and booking handlers, which catch internally, have `raises` false and
leave processing untouched). -/
theorem message_error_aborts_cycle_amended :
    ∀ (raises : Message → Bool) (ledger : List String) (pre : List Message)
      (m : Message) (post : List Message),
      ((pre ++ m :: post).map Message.id).Nodup →
      (∀ x ∈ pre, x.id ∈ ledger ∨ x.sender = "business" ∨ raises x = false) →
      m.id ∉ ledger → m.sender ≠ "business" → raises m = true →
      (process_new_messages raises (pre ++ m :: post) ledger).aborted =
          true ∧
      m.id ∈ (process_new_messages raises (pre ++ m :: post) ledger).routed ∧
      m.id ∉ (process_new_messages raises (pre ++ m :: post) ledger).ledger ∧
      (∀ x ∈ post, x.id ∉
        (process_new_messages raises (pre ++ m :: post) ledger).routed) ∧
      (∀ raises2 : Message → Bool, m.id ∈ (process_new_messages raises2 [m]
        (process_new_messages raises (pre ++ m :: post) ledger).ledger).routed) := by
  intro raises ledger pre m post hnd hpre hm1 hm2 hm3
  obtain ⟨h1, h2, h3, h4⟩ := process_new_messages_loop_abort raises pre m post
    ledger [] hnd hpre hm1 hm2 hm3 (fun x _ => List.not_mem_nil x.id)
  refine ⟨h1, h2, h3, h4, ?_⟩
  intro raises2
  simp only [process_new_messages, process_new_messages_loop]
  rw [if_neg (not_or.mpr ⟨h3, hm2⟩)]
  by_cases hr : raises2 m
  · rw [if_pos hr]
    simp
  · rw [if_neg hr]
    simp only [process_new_messages_loop]
    simp

/-- Evaluation witness for C5: a batch of a business message, a raising
customer message and a further customer message, at the empty ledger. -/
theorem message_error_aborts_cycle_amended_witness :
    (process_new_messages (fun msg => decide (msg.id = "m1"))
        [{ id := "m0", lead_id := "l1", sender := "business",
           content := "sent by us" },
         { id := "m1", lead_id := "l1", sender := "customer",
           content := "question one" },
         { id := "m2", lead_id := "l1", sender := "customer",
           content := "question two" }] []).aborted = true ∧
    "m1" ∈ (process_new_messages (fun msg => decide (msg.id = "m1"))
        [{ id := "m0", lead_id := "l1", sender := "business",
           content := "sent by us" },
         { id := "m1", lead_id := "l1", sender := "customer",
           content := "question one" },
         { id := "m2", lead_id := "l1", sender := "customer",
           content := "question two" }] []).routed ∧
    "m1" ∉ (process_new_messages (fun msg => decide (msg.id = "m1"))
        [{ id := "m0", lead_id := "l1", sender := "business",
           content := "sent by us" },
         { id := "m1", lead_id := "l1", sender := "customer",
           content := "question one" },
         { id := "m2", lead_id := "l1", sender := "customer",
           content := "question two" }] []).ledger ∧
    "m2" ∉ (process_new_messages (fun msg => decide (msg.id = "m1"))
        [{ id := "m0", lead_id := "l1", sender := "business",
           content := "sent by us" },
         { id := "m1", lead_id := "l1", sender := "customer",
           content := "question one" },
         { id := "m2", lead_id := "l1", sender := "customer",
           content := "question two" }] []).routed := by
  obtain ⟨h1, h2, h3, h4, -⟩ := message_error_aborts_cycle_amended
    (fun msg => decide (msg.id = "m1")) []
    [{ id := "m0", lead_id := "l1", sender := "business",
       content := "sent by us" }]
    { id := "m1", lead_id := "l1", sender := "customer",
      content := "question one" }
    [{ id := "m2", lead_id := "l1", sender := "customer",
       content := "question two" }]
    (by decide) (by decide) (by decide) (by decide) (by decide)
  refine ⟨h1, h2, h3, ?_⟩
  exact h4 ⟨"m2", "l1", "customer", "question two"⟩ (by decide)

theorem process_new_messages_loop_routed_mono (raises : Message → Bool) :
    ∀ (ms : List Message) (ledger routed : List String) (j : String),
      j ∈ routed →
      j ∈ (process_new_messages_loop raises ms ledger routed).routed := by
  intro ms
  induction ms with
  | nil => intro ledger routed j hj; exact hj
  | cons m rest ih =>
      intro ledger routed j hj
      simp only [process_new_messages_loop]
      by_cases hskip : m.id ∈ ledger ∨ m.sender = "business"
      · rw [if_pos hskip]
        exact ih ledger routed j hj
      · rw [if_neg hskip]
        by_cases hr : raises m
        · rw [if_pos hr]
          exact List.mem_append.mpr (Or.inl hj)
        · rw [if_neg hr]
          exact ih _ _ j (List.mem_append.mpr (Or.inl hj))

theorem process_new_messages_loop_ledger_from (raises : Message → Bool) :
    ∀ (ms : List Message) (ledger routed : List String) (j : String),
      j ∈ (process_new_messages_loop raises ms ledger routed).ledger →
      j ∈ ledger ∨
        j ∈ (process_new_messages_loop raises ms ledger routed).routed := by
  intro ms
  induction ms with
  | nil => intro ledger routed j hj; exact Or.inl hj
  | cons m rest ih =>
      intro ledger routed j hj
      simp only [process_new_messages_loop] at hj ⊢
      by_cases hskip : m.id ∈ ledger ∨ m.sender = "business"
      · rw [if_pos hskip] at hj ⊢
        exact ih ledger routed j hj
      · rw [if_neg hskip] at hj ⊢
        by_cases hr : raises m
        · rw [if_pos hr] at hj ⊢
          exact Or.inl hj
        · rw [if_neg hr] at hj ⊢
          rcases ih _ _ j hj with h | h
          · rcases List.mem_append.mp h with h2 | h2
            · exact Or.inl h2
            · exact Or.inr (process_new_messages_loop_routed_mono raises rest
                _ _ j (List.mem_append.mpr (Or.inr h2)))
          · exact Or.inr h

theorem process_new_messages_loop_routed_src (raises : Message → Bool) :
    ∀ (ms : List Message) (ledger routed : List String) (j : String),
      j ∈ (process_new_messages_loop raises ms ledger routed).routed →
      j ∈ routed ∨ ∃ x ∈ ms, x.id = j ∧ x.sender ≠ "business" := by
  intro ms
  induction ms with
  | nil => intro ledger routed j hj; exact Or.inl hj
  | cons m rest ih =>
      intro ledger routed j hj
      simp only [process_new_messages_loop] at hj
      by_cases hskip : m.id ∈ ledger ∨ m.sender = "business"
      · rw [if_pos hskip] at hj
        rcases ih ledger routed j hj with h | ⟨x, hx, he, hs⟩
        · exact Or.inl h
        · exact Or.inr ⟨x, List.mem_cons_of_mem m hx, he, hs⟩
      · rw [if_neg hskip] at hj
        push_neg at hskip
        by_cases hr : raises m
        · rw [if_pos hr] at hj
          rcases List.mem_append.mp hj with h | h
          · exact Or.inl h
          · exact Or.inr ⟨m, List.mem_cons_self m rest,
              (List.mem_singleton.mp h).symm, hskip.2⟩
        · rw [if_neg hr] at hj
          rcases ih _ _ j hj with h | ⟨x, hx, he, hs⟩
          · rcases List.mem_append.mp h with h2 | h2
            · exact Or.inl h2
            · exact Or.inr ⟨m, List.mem_cons_self m rest,
                (List.mem_singleton.mp h2).symm, hskip.2⟩
          · exact Or.inr ⟨x, List.mem_cons_of_mem m hx, he, hs⟩

theorem run_message_cycles_routed_mono (raises : Message → Bool) :
    ∀ (batches : List (List Message)) (ledger routed_all : List String)
      (j : String), j ∈ routed_all →
      j ∈ (run_message_cycles raises batches ledger routed_all).2 := by
  intro batches
  induction batches with
  | nil => intro ledger routed_all j hj; exact hj
  | cons b rest ih =>
      intro ledger routed_all j hj
      exact ih _ _ j (List.mem_append.mpr (Or.inl hj))

theorem run_message_cycles_ledger_from (raises : Message → Bool) :
    ∀ (batches : List (List Message)) (ledger routed_all : List String)
      (j : String),
      j ∈ (run_message_cycles raises batches ledger routed_all).1 →
      j ∈ ledger ∨ j ∈ (run_message_cycles raises batches ledger routed_all).2 := by
  intro batches
  induction batches with
  | nil => intro ledger routed_all j hj; exact Or.inl hj
  | cons b rest ih =>
      intro ledger routed_all j hj
      rcases ih _ _ j hj with h | h
      · rcases process_new_messages_loop_ledger_from raises b ledger [] j h
          with h2 | h2
        · exact Or.inl h2
        · exact Or.inr (run_message_cycles_routed_mono raises rest _ _ j
            (List.mem_append.mpr (Or.inr h2)))
      · exact Or.inr h

theorem run_message_cycles_routed_src (raises : Message → Bool) :
    ∀ (batches : List (List Message)) (ledger routed_all : List String)
      (j : String),
      j ∈ (run_message_cycles raises batches ledger routed_all).2 →
      j ∈ routed_all ∨
        ∃ b ∈ batches, ∃ x ∈ b, x.id = j ∧ x.sender ≠ "business" := by
  intro batches
  induction batches with
  | nil => intro ledger routed_all j hj; exact Or.inl hj
  | cons b rest ih =>
      intro ledger routed_all j hj
      rcases ih _ _ j hj with h | ⟨b2, hb2, x, hx, he, hs⟩
      · rcases List.mem_append.mp h with h2 | h2
        · exact Or.inl h2
        · rcases process_new_messages_loop_routed_src raises b ledger [] j h2
            with h3 | ⟨x, hx, he, hs⟩
          · exact absurd h3 (List.not_mem_nil j)
          · exact Or.inr ⟨b, List.mem_cons_self b rest, x, hx, he, hs⟩
      · exact Or.inr ⟨b2, List.mem_cons_of_mem b hb2, x, hx, he, hs⟩

/-- C10: a business-sent message is skipped before the ledger-marking
step, so across any sequence of poll cycles starting from the empty
ledger an id carried only by business-sent messages never enters the
ledger and is never routed (it is re-skipped every cycle it is fetched
in), and every id in the final ledger is the id of an item that was
actually dispatched to a handler. -/
theorem business_message_id_never_in_ledger :
    ∀ (raises : Message → Bool) (batches : List (List Message)) (i : String),
      (∀ b ∈ batches, ∀ m ∈ b, m.id = i → m.sender = "business") →
      i ∉ (run_message_cycles raises batches [] []).1 ∧
      i ∉ (run_message_cycles raises batches [] []).2 ∧
      (∀ j ∈ (run_message_cycles raises batches [] []).1,
        j ∈ (run_message_cycles raises batches [] []).2) := by
  intro raises batches i hbus
  have hnr : i ∉ (run_message_cycles raises batches [] []).2 := by
    intro hcon
    rcases run_message_cycles_routed_src raises batches [] [] i hcon with
      h | ⟨b, hb, x, hx, he, hs⟩
    · exact List.not_mem_nil i h
    · exact hs (hbus b hb x hx he)
  have hled : ∀ j ∈ (run_message_cycles raises batches [] []).1,
      j ∈ (run_message_cycles raises batches [] []).2 := by
    intro j hj
    rcases run_message_cycles_ledger_from raises batches [] [] j hj with h | h
    · exact absurd h (List.not_mem_nil j)
    · exact h
  exact ⟨fun hcon => hnr (hled i hcon), hnr, hled⟩

/-- Evaluation witness for C10: two cycles fetching the same business
message never record its id. -/
theorem business_message_id_never_in_ledger_witness :
    "m7" ∉ (run_message_cycles (fun _ => false)
      [[{ id := "m7", lead_id := "l1", sender := "business",
          content := "our note" }],
       [{ id := "m7", lead_id := "l1", sender := "business",
          content := "our note" }]] [] []).1 :=
  (business_message_id_never_in_ledger (fun _ => false)
    [[{ id := "m7", lead_id := "l1", sender := "business",
        content := "our note" }],
     [{ id := "m7", lead_id := "l1", sender := "business",
        content := "our note" }]] "m7" (by decide)).1

/-! ## Booking-Confirmation Handler (src/main.py lines 265-307) -/

/-- Trace of `_handle_booking_confirmation`: the calendar event handed
to `calendar_client.create_event` and the status update performed when
an event id came back. -/
structure BookingResult where
  submitted_event : CalendarEvent
  status_update : Option LeadStatus
deriving DecidableEq, Repr

/-- Embeds `ThumbtackBot._handle_booking_confirmation` (main.py lines
265-307).  The placeholder slot is `datetime.now().replace(hour=14,
minute=0, second=0, microsecond=0) + timedelta(days=1)` with a
`timedelta(hours=2)` span; `create_ok` is the optional event id the
calendar gateway returns, and `submitted_event` is the exact argument
passed to `create_event`.  Python truthiness makes an empty-string
customer email behave like a missing one in the attendee test. -/
def handle_booking_confirmation (cfg : Config) (message : Message)
    (lead : Option Lead) (now : DateTime) (create_ok : Option String) :
    BookingResult :=
  let start_time : DateTime := ⟨now.day + 1, 14⟩
  let end_time : DateTime := ⟨start_time.day, start_time.hour + 2⟩
  let calendar_event : CalendarEvent :=
    { lead_id := message.lead_id
      title := cfg.service_type ++ " - " ++
        (match lead with
          | some l => l.customer_name
          | none => "Client")
      description := "Lead ID: " ++ message.lead_id ++ "\nService: " ++
        cfg.service_type ++ "\n\nGenerated by Thumbtack Bot"
      start_time := start_time
      end_time := end_time
      attendees := match lead with
        | some l =>
            (match l.customer_email with
              | some email => if email = "" then [] else [email]
              | none => [])
        | none => [] }
  { submitted_event := calendar_event
    status_update := match create_ok with
      | some _ => some LeadStatus.booked
      | none => none }

/-- C8: with no resolvable lead, the booking handler still constructs
and submits a calendar event whose attendee list is empty, whose title
contains (here: ends in) the placeholder name Client, and whose slot is
the fixed placeholder: start at 14:00 on the day after now, end exactly
2 hours later on the same day. -/
theorem booking_confirmation_placeholder :
    ∀ (cfg : Config) (message : Message) (now : DateTime)
      (create_ok : Option String),
      (handle_booking_confirmation cfg message none now
          create_ok).submitted_event.attendees = [] ∧
      (∃ p, (handle_booking_confirmation cfg message none now
          create_ok).submitted_event.title = p ++ "Client") ∧
      (handle_booking_confirmation cfg message none now
          create_ok).submitted_event.start_time = ⟨now.day + 1, 14⟩ ∧
      (handle_booking_confirmation cfg message none now
          create_ok).submitted_event.end_time.day =
        (handle_booking_confirmation cfg message none now
          create_ok).submitted_event.start_time.day ∧
      (handle_booking_confirmation cfg message none now
          create_ok).submitted_event.end_time.hour =
        (handle_booking_confirmation cfg message none now
          create_ok).submitted_event.start_time.hour + 2 := by
  intro cfg message now create_ok
  exact ⟨rfl, ⟨cfg.service_type ++ " - ", rfl⟩, rfl, rfl, rfl⟩

/-! ## Meeting-time suggestion (src/calendar_client.py lines 245-276)

The slot type is kept abstract and `avail` abstracts the inner
`get_available_slots(check_date, duration_hours)` call, indexed by an
absolute day number; a day `d` is a weekend day iff `5 <= d.emod 7`
(Monday at day-index 0 mod 7, the Monday=0 convention of
`datetime.weekday()`). -/

/-- Day-scanning loop of `suggest_meeting_times` (calendar_client.py
lines 258-269): `for days_offset in range(7)` becomes a countdown `k`,
weekend days are skipped, each eligible day contributes the first 3 of
its available slots, and the loop breaks once 6 or more suggestions are
accumulated.  Alongside the accumulated suggestions the loop records
the days actually queried, in order. -/
def suggest_loop {α : Type} (avail : ℤ → List α) :
    ℕ → ℤ → List α → List ℤ → List α × List ℤ
  | 0, _, acc, queried => (acc, queried)
  | k + 1, day, acc, queried =>
      if 5 ≤ day.emod 7 then suggest_loop avail k (day + 1) acc queried
      else
        let acc2 := acc ++ (avail day).take 3
        let queried2 := queried ++ [day]
        if 6 ≤ acc2.length then (acc2, queried2)
        else suggest_loop avail k (day + 1) acc2 queried2

/-- Embeds `CalendarClient.suggest_meeting_times` (calendar_client.py
lines 245-276): the preferred date defaults to one day after now, the
scan covers the 7 days from the preferred date, and the result is
capped by the final `[:6]`. -/
def suggest_meeting_times {α : Type} (avail : ℤ → List α)
    (preferred_date : Option ℤ) (now_day : ℤ) : List α :=
  let preferred := preferred_date.getD (now_day + 1)
  (suggest_loop avail 7 preferred [] []).1.take 6

/-- Days whose slots `suggest_meeting_times` actually queries, in scan
order. -/
def suggest_queried {α : Type} (avail : ℤ → List α)
    (preferred_date : Option ℤ) (now_day : ℤ) : List ℤ :=
  (suggest_loop avail 7 (preferred_date.getD (now_day + 1)) [] []).2

theorem suggest_loop_spec {α : Type} (avail : ℤ → List α) :
    ∀ (k : ℕ) (day : ℤ) (acc : List α) (queried : List ℤ),
      ∃ q2 : List ℤ,
        (suggest_loop avail k day acc queried).2 = queried ++ q2 ∧
        (suggest_loop avail k day acc queried).1 =
          acc ++ (q2.map (fun d => (avail d).take 3)).flatten ∧
        (∀ d ∈ q2, day ≤ d ∧ d < day + k ∧ d.emod 7 < 5) ∧
        q2.Pairwise (· < ·) ∧
        (∀ d : ℤ, day ≤ d → d < day + k → d.emod 7 < 5 → d ∉ q2 →
          6 ≤ acc.length +
            ((q2.filter (fun o => decide (o < d))).map
              (fun o => ((avail o).take 3).length)).sum) := by
  intro k
  induction k with
  | zero =>
      intro day acc queried
      refine ⟨[], by simp [suggest_loop], by simp [suggest_loop], ?_, ?_, ?_⟩
      · intro d hd
        exact absurd hd (List.not_mem_nil d)
      · exact List.Pairwise.nil
      · intro d h1 h2
        omega
  | succ n ih =>
      intro day acc queried
      by_cases hw : 5 ≤ day.emod 7
      · obtain ⟨q2, e1, e2, h3, h4, h5⟩ := ih (day + 1) acc queried
        have hloop : suggest_loop avail (n + 1) day acc queried =
            suggest_loop avail n (day + 1) acc queried := by
          simp only [suggest_loop]
          rw [if_pos hw]
        refine ⟨q2, by rw [hloop]; exact e1, by rw [hloop]; exact e2,
          ?_, h4, ?_⟩
        · intro d hd
          obtain ⟨a, b, c⟩ := h3 d hd
          exact ⟨by omega, by push_cast at b ⊢; omega, c⟩
        · intro d hd1 hd2 hd3 hd4
          have hne : d ≠ day := by
            intro he
            rw [he] at hd3
            omega
          refine h5 d (by omega) ?_ hd3 hd4
          push_cast at hd2 ⊢
          omega
      · have hwlt : day.emod 7 < 5 := by omega
        by_cases hstop : 6 ≤ (acc ++ (avail day).take 3).length
        · have hloop : suggest_loop avail (n + 1) day acc queried =
              (acc ++ (avail day).take 3, queried ++ [day]) := by
            simp only [suggest_loop]
            rw [if_neg hw, if_pos hstop]
          refine ⟨[day], by rw [hloop], by rw [hloop]; simp, ?_, ?_, ?_⟩
          · intro d hd
            rw [List.mem_singleton] at hd
            subst hd
            refine ⟨le_refl _, ?_, hwlt⟩
            push_cast
            omega
          · simp
          · intro d hd1 hd2 hd3 hd4
            rw [List.mem_singleton] at hd4
            have hdlt : day < d := by omega
            have hfil : [day].filter (fun o => decide (o < d)) = [day] := by
              rw [List.filter_cons]
              simp [hdlt]
            rw [hfil]
            simp only [List.map_cons, List.map_nil, List.sum_cons,
              List.sum_nil, add_zero]
            rw [List.length_append] at hstop
            omega
        · obtain ⟨q2', e1, e2, h3, h4, h5⟩ := ih (day + 1)
            (acc ++ (avail day).take 3) (queried ++ [day])
          have hloop : suggest_loop avail (n + 1) day acc queried =
              suggest_loop avail n (day + 1) (acc ++ (avail day).take 3)
                (queried ++ [day]) := by
            simp only [suggest_loop]
            rw [if_neg hw, if_neg hstop]
          refine ⟨day :: q2', ?_, ?_, ?_, ?_, ?_⟩
          · rw [hloop, e1, List.append_assoc]
            simp
          · rw [hloop, e2, List.append_assoc]
            simp
          · intro d hd
            rcases List.mem_cons.mp hd with rfl | hd2
            · refine ⟨le_refl _, ?_, hwlt⟩
              push_cast
              omega
            · obtain ⟨a, b, c⟩ := h3 d hd2
              refine ⟨by omega, ?_, c⟩
              push_cast at b ⊢
              omega
          · refine List.Pairwise.cons ?_ h4
            intro d hd
            have := (h3 d hd).1
            omega
          · intro d hd1 hd2 hd3 hd4
            have hne : d ≠ day := fun he => hd4 (he ▸ List.mem_cons_self day q2')
            have hnm : d ∉ q2' := fun hh => hd4 (List.mem_cons_of_mem day hh)
            have hd2' : d < day + 1 + (n : ℤ) := by
              push_cast at hd2 ⊢
              omega
            have h6 := h5 d (by omega) hd2' hd3 hnm
            have hdlt : day < d := by omega
            have hfil : (day :: q2').filter (fun o => decide (o < d)) =
                day :: q2'.filter (fun o => decide (o < d)) := by
              rw [List.filter_cons]
              simp [hdlt]
            rw [hfil]
            simp only [List.map_cons, List.sum_cons]
            rw [List.length_append] at h6
            omega

/-- C4: `suggest_meeting_times` scans at most the 7 consecutive days
starting at the preferred date (one day after now when no date is
given), queries no weekend day (weekday index >= 5, Monday=0), takes at
most the first 3 available slots of each queried day in order of
discovery, only skips an eligible day when at least 6 suggestions were
already accumulated from earlier days, and returns at most 6 entries. -/
theorem suggest_meeting_times_caps :
    ∀ {α : Type} (avail : ℤ → List α) (preferred_date : Option ℤ)
      (now_day : ℤ),
      (suggest_meeting_times avail preferred_date now_day).length ≤ 6 ∧
      suggest_meeting_times avail preferred_date now_day =
        (((suggest_queried avail preferred_date now_day).map
          (fun d => (avail d).take 3)).flatten).take 6 ∧
      (∀ d ∈ suggest_queried avail preferred_date now_day,
        preferred_date.getD (now_day + 1) ≤ d ∧
        d < preferred_date.getD (now_day + 1) + 7 ∧ d.emod 7 < 5) ∧
      (suggest_queried avail preferred_date now_day).Pairwise (· < ·) ∧
      (∀ d : ℤ, preferred_date.getD (now_day + 1) ≤ d →
        d < preferred_date.getD (now_day + 1) + 7 → d.emod 7 < 5 →
        d ∉ suggest_queried avail preferred_date now_day →
        6 ≤ (((suggest_queried avail preferred_date now_day).filter
            (fun o => decide (o < d))).map
          (fun o => ((avail o).take 3).length)).sum) ∧
      suggest_meeting_times avail none now_day =
        suggest_meeting_times avail (some (now_day + 1)) now_day := by
  intro α avail preferred_date now_day
  obtain ⟨q2, e1, e2, h3, h4, h5⟩ := suggest_loop_spec avail 7
    (preferred_date.getD (now_day + 1)) [] []
  have hq : suggest_queried avail preferred_date now_day = q2 := by
    rw [suggest_queried, e1]
    simp
  have hs : suggest_meeting_times avail preferred_date now_day =
      ((q2.map (fun d => (avail d).take 3)).flatten).take 6 := by
    simp only [suggest_meeting_times]
    rw [e2]
    simp
  refine ⟨?_, ?_, ?_, ?_, ?_, rfl⟩
  · rw [hs, List.length_take]
    exact min_le_left _ _
  · rw [hs, hq]
  · intro d hd
    rw [hq] at hd
    obtain ⟨a, b, c⟩ := h3 d hd
    refine ⟨a, ?_, c⟩
    push_cast at b
    exact b
  · rw [hq]
    exact h4
  · intro d hd1 hd2 hd3 hd4
    rw [hq] at hd4
    have := h5 d hd1 (by push_cast; exact hd2) hd3 hd4
    rw [hq]
    simpa using this

/-- Evaluation witness for C4: the 6-entry cap at a concrete
availability of five slots per day, and the day bounds of a concretely
queried day. -/
theorem suggest_meeting_times_caps_witness :
    (suggest_meeting_times (fun _ : ℤ => [1, 2, 3, 4, 5]) none 0).length ≤ 6 ∧
      ((0 : ℤ) + 1 ≤ 1 ∧ (1 : ℤ) < (0 : ℤ) + 1 + 7 ∧ (1 : ℤ).emod 7 < 5) :=
  ⟨(suggest_meeting_times_caps (fun _ : ℤ => [1, 2, 3, 4, 5]) none 0).1,
    (suggest_meeting_times_caps (fun _ : ℤ => [1, 2, 3, 4, 5]) none 0).2.2.1 1
      (by decide)⟩
